import Mathlib

/-!
# A shallow embedding of the `cubehead` networking core

This file embeds, in Lean, the connection/message-lifecycle core of the
`cubehead` repository:

* `src/lib.rs` — the `AsyncBufferedReceiver` length-prefix framer
  (`read`), the `Head` state record and `serialize_msg`;
* `src/bin/server.rs` — the server tick loop (`server`) and the default
  bind address logic of `main`;
* `src/main.rs` — the client's `poll` / `update_heads` drain loop.

Bytes are modelled as `Nat` (values `< 256` where it matters), `Vec<u8>`
as `List Nat`, machine integers as `Nat` with explicit `% 2 ^ 32`
truncation where overflow matters, and fallible operations as
`Except`/`Option`.  A non-blocking byte stream (`std::io::Read` on a
non-blocking `TcpStream`) is modelled as a list of scheduled outcomes for
the successive `read` calls: a data chunk, a `WouldBlock` error, or an
unspecified I/O error; end-of-stream (the peer hung up) is the empty
schedule, which yields `Ok(0)`.
-/

namespace Cubehead

/-- `u32::to_le_bytes`: the four little-endian base-256 digits of `n % 2 ^ 32`. -/
def le4 (n : Nat) : List Nat :=
  [n % 256, n / 256 % 256, n / 65536 % 256, n / 16777216 % 256]

/-- `u32::from_le_bytes` on an exactly-four-byte list (`0` on any other shape,
which the code never hits: it only decodes after reading exactly 4 bytes). -/
def leU32 : List Nat → Nat
  | [b0, b1, b2, b3] => b0 + 256 * b1 + 65536 * b2 + 16777216 * b3
  | _ => 0

/-- `u64::from_le_bytes` on an exactly-eight-byte list (`0` otherwise). -/
def leU64 : List Nat → Nat
  | [b0, b1, b2, b3, b4, b5, b6, b7] =>
      b0 + 256 * b1 + 65536 * b2 + 16777216 * b3 +
        4294967296 * (b4 + 256 * b5 + 65536 * b6 + 16777216 * b7)
  | _ => 0

/-- `u64::to_le_bytes`: the eight little-endian base-256 digits of `n % 2 ^ 64`. -/
def le8 (n : Nat) : List Nat :=
  le4 (n % 4294967296) ++ le4 (n / 4294967296 % 4294967296)

/-- One scheduled outcome of a `read` call on the underlying transport. -/
inductive Chunk
  | data (bytes : List Nat)
  | wouldBlock
  | ioError
deriving DecidableEq

/-- The transport: the schedule of outcomes for successive `read` calls.
An exhausted schedule means the peer has hung up (every further read
returns `Ok(0)`). -/
abbrev ByteStream := List Chunk

/-- Result of one `read` call on the transport (`std::io::Result<usize>`
together with the bytes read). -/
inductive RRes
  | ok (bytes : List Nat)
  | wouldBlock
  | ioError
deriving DecidableEq

/-- One call `r.read(&mut buf)` with `buf.len() = n`: takes up to `n` bytes
from the front data chunk (a partial chunk stays queued), pops a
`WouldBlock` or I/O-error marker, returns `Ok(0)` at end-of-stream.
A zero-length destination buffer reads zero bytes without touching the
transport, as `recv` with length 0 does. -/
def rread (n : Nat) (s : ByteStream) : RRes × ByteStream :=
  if n = 0 then (.ok [], s) else
  match s with
  | [] => (.ok [], [])
  | .data c :: rest =>
      let rem := c.drop n
      (.ok (c.take n), if rem.isEmpty then rest else .data rem :: rest)
  | .wouldBlock :: rest => (.wouldBlock, rest)
  | .ioError :: rest => (.ioError, rest)

/-- `AsyncBufferedReceiver` from `src/lib.rs`: the body buffer and the cursor.
An empty `buf` means "awaiting the 4-byte header". -/
structure AsyncBufferedReceiver where
  buf : List Nat
  buf_pos : Nat
deriving DecidableEq

/-- `AsyncBufferedReceiver::new()`. -/
def AsyncBufferedReceiver.new : AsyncBufferedReceiver := ⟨[], 0⟩

/-- `ReadState` from `src/lib.rs`. -/
inductive ReadState
  | Disconnected
  | Incomplete
  | Complete (bytes : List Nat)
  | Invalid
deriving DecidableEq

/-- Writing `bytes` into `buf` starting at `pos`
(the in-place `r.read(&mut self.buf[self.buf_pos..])` write). -/
def writeAt (buf : List Nat) (pos : Nat) (bytes : List Nat) : List Nat :=
  buf.take pos ++ bytes ++ buf.drop (pos + bytes.length)

deriving instance DecidableEq for Except

/-- Outcome of the header section of `AsyncBufferedReceiver::read`:
either an early `return`, or fall through to the body section. -/
inductive HeaderOutcome
  | ret (r : Except Unit ReadState)
  | proceed
deriving DecidableEq

/-- The header section of `AsyncBufferedReceiver::read` (`src/lib.rs`):
if no message is in progress, read 4 header bytes; `0` bytes →
`Disconnected`, exactly `4` → size the body buffer from the little-endian
value and reset the cursor, otherwise → `Invalid`; `WouldBlock` →
`Incomplete`; any other error is propagated. -/
def header_step (st : AsyncBufferedReceiver) (s : ByteStream) :
    HeaderOutcome × AsyncBufferedReceiver × ByteStream :=
  if st.buf.isEmpty then
    match rread 4 s with
    | (.ok bytes, s') =>
        if bytes.length = 0 then (.ret (.ok .Disconnected), st, s')
        else if bytes.length = 4 then
          (.proceed, ⟨List.replicate (leU32 bytes) 0, 0⟩, s')
        else (.ret (.ok .Invalid), st, s')
    | (.wouldBlock, s') => (.ret (.ok .Incomplete), st, s')
    | (.ioError, s') => (.ret (.error ()), st, s')
  else (.proceed, st, s)

/-- The body section of `AsyncBufferedReceiver::read` (`src/lib.rs`):
read into `buf[buf_pos..]`; `0` bytes → `Disconnected`; positive `n` →
advance the cursor and return `Complete` (taking the buffer) exactly when
it reaches the buffer length, else `Incomplete`; `WouldBlock` →
`Incomplete`; any other error is propagated. -/
def body_step (st : AsyncBufferedReceiver) (s : ByteStream) :
    Except Unit ReadState × AsyncBufferedReceiver × ByteStream :=
  match rread (st.buf.length - st.buf_pos) s with
  | (.ok bytes, s') =>
      if bytes.length = 0 then (.ok .Disconnected, st, s')
      else
        let pos' := st.buf_pos + bytes.length
        let buf' := writeAt st.buf st.buf_pos bytes
        if pos' = st.buf.length then (.ok (.Complete buf'), ⟨[], pos'⟩, s')
        else (.ok .Incomplete, ⟨buf', pos'⟩, s')
  | (.wouldBlock, s') => (.ok .Incomplete, st, s')
  | (.ioError, s') => (.error (), st, s')

/-- `AsyncBufferedReceiver::read` (`src/lib.rs`): the header section, then —
unless it returned early — the body section, in one call. -/
def AsyncBufferedReceiver.read (st : AsyncBufferedReceiver) (s : ByteStream) :
    Except Unit ReadState × AsyncBufferedReceiver × ByteStream :=
  match header_step st s with
  | (.ret r, st', s') => (r, st', s')
  | (.proceed, st', s') => body_step st' s'

/-- Calling `read` repeatedly on one framer until the schedule is exhausted,
the peer disconnects, or an error occurs, collecting the completed
messages in order.  `fuel` bounds the number of calls. -/
def runFramer : Nat → AsyncBufferedReceiver → ByteStream → List (List Nat)
  | 0, _, _ => []
  | fuel + 1, st, s =>
      if s.isEmpty then [] else
      match st.read s with
      | (.ok (.Complete m), st', s') => m :: runFramer fuel st' s'
      | (.ok .Disconnected, _, _) => []
      | (.error _, _, _) => []
      | (.ok .Incomplete, st', s') => runFramer fuel st' s'
      | (.ok .Invalid, st', s') => runFramer fuel st' s'

/-- Calling `read` repeatedly on one framer as the client's `poll` loop does,
collecting the completed messages in order; the loop — and hence the
collection — stops at the first call whose result is not `Complete`.
`fuel` bounds the number of calls. -/
def drainMsgs : Nat → AsyncBufferedReceiver → ByteStream → List (List Nat)
  | 0, _, _ => []
  | fuel + 1, st, s =>
      match st.read s with
      | (.ok (.Complete m), st', s') => m :: drainMsgs fuel st' s'
      | _ => []

/-- `Point3<f32>` of a `Head`, each coordinate as its 32-bit pattern. -/
structure Point3 where
  x : Nat
  y : Nat
  z : Nat
deriving DecidableEq

/-- The `UnitQuaternion<f32>` of a `Head`, each coefficient as its 32-bit
pattern, in the nalgebra coefficient order `[i, j, k, w]`. -/
structure Quaternion where
  i : Nat
  j : Nat
  k : Nat
  w : Nat
deriving DecidableEq

/-- `Head` from `src/lib.rs`: position and orientation.  Floating-point
values are carried as their 32-bit patterns: serialization only moves
the bytes of those patterns, so nothing here computes with floats. -/
structure Head where
  pos : Point3
  orient : Quaternion
deriving DecidableEq

/-- `Head::default()`: all coordinate bit patterns of the zero position and
the default orientation; the claims below never depend on its value. -/
def Head.default : Head := ⟨⟨0, 0, 0⟩, ⟨0, 0, 0, 0⟩⟩

/-- All seven 32-bit patterns of a `Head` are in `f32` range (`< 2 ^ 32`). -/
def Head.wf (h : Head) : Prop :=
  h.pos.x < 4294967296 ∧ h.pos.y < 4294967296 ∧ h.pos.z < 4294967296 ∧
    h.orient.i < 4294967296 ∧ h.orient.j < 4294967296 ∧
    h.orient.k < 4294967296 ∧ h.orient.w < 4294967296

/-- The bincode body of one `Head`: each of the seven `f32` patterns as four
little-endian bytes, positions first, then the quaternion coefficients —
28 bytes (bincode 1.x fixed-width little-endian encoding, nalgebra
serializing `Point3`/`UnitQuaternion` as their coefficient sequences). -/
def serializeHead (h : Head) : List Nat :=
  le4 h.pos.x ++ le4 h.pos.y ++ le4 h.pos.z ++
    le4 h.orient.i ++ le4 h.orient.j ++ le4 h.orient.k ++ le4 h.orient.w

/-- Decode 28 bincode bytes back into a `Head` (`None` on any other length). -/
def deserializeHead (b : List Nat) : Option Head :=
  if b.length = 28 then
    some ⟨⟨leU32 (b.take 4), leU32 ((b.drop 4).take 4), leU32 ((b.drop 8).take 4)⟩,
          ⟨leU32 ((b.drop 12).take 4), leU32 ((b.drop 16).take 4),
           leU32 ((b.drop 20).take 4), leU32 ((b.drop 24).take 4)⟩⟩
  else none

/-- `serialize_msg` from `src/lib.rs` applied to a `Head`:
`bincode::serialized_size` is 28, so the wire form is the 4-byte
little-endian header `le4 28` followed by the 28-byte body. -/
def serialize_msg (h : Head) : List Nat :=
  le4 (serializeHead h).length ++ serializeHead h

/-- One encode→decode round trip of a `Head`: serialize with `serialize_msg`
and decode the body (everything after the 4-byte header) back. -/
def roundTrip (h : Head) : Option Head :=
  deserializeHead ((serialize_msg h).drop 4)

/-- Decode `k` consecutive 28-byte `Head` records (bincode `Vec<Head>`
elements); bytes past the last record are ignored, as
`bincode::deserialize` ignores trailing bytes. -/
def deserializeHeadsAux : Nat → List Nat → Option (List Head)
  | 0, _ => some []
  | k + 1, b =>
      if 28 ≤ b.length then
        match deserializeHead (b.take 28), deserializeHeadsAux k (b.drop 28) with
        | some h, some hs => some (h :: hs)
        | _, _ => none
      else none

/-- `bincode::deserialize::<Vec<Head>>`: an 8-byte little-endian element
count, then that many 28-byte records. -/
def deserializeHeads (b : List Nat) : Option (List Head) :=
  if 8 ≤ b.length then deserializeHeadsAux (leU64 (b.take 8)) (b.drop 8) else none

/-- The `while let ReadState::Complete(msg) = self.msg_buf.read(..)?` loop of
`Client::poll` (`src/main.rs`): keep reading while the result is
`Complete`, remembering only the latest message; an I/O error propagates
(the `?`).  `fuel` bounds the number of loop iterations. -/
def pollLoop : Nat → AsyncBufferedReceiver → ByteStream → Option (List Nat) →
    Except Unit (Option (List Nat) × AsyncBufferedReceiver × ByteStream)
  | 0, st, s, latest => .ok (latest, st, s)
  | fuel + 1, st, s, latest =>
      match st.read s with
      | (.ok (.Complete m), st', s') => pollLoop fuel st' s' (some m)
      | (.error _, _, _) => .error ()
      | (r, st', s') =>
          match r with
          | _ => .ok (latest, st', s')

/-- `Client::poll` (`src/main.rs`): drain the framer, then — if some message
completed — replace `self.heads` with its bincode decoding, the decode
error propagating (the `?`); otherwise leave `self.heads` unchanged. -/
def poll (heads : List Head) (st : AsyncBufferedReceiver) (s : ByteStream)
    (fuel : Nat) : Except Unit (List Head × AsyncBufferedReceiver × ByteStream) :=
  match pollLoop fuel st s none with
  | .error _ => .error ()
  | .ok (none, st', s') => .ok (heads, st', s')
  | .ok (some m, st', s') =>
      match deserializeHeads m with
      | some hs => .ok (hs, st', s')
      | none => .error ()

/-- `update_heads` (`src/main.rs`): run `poll` and surface the stored heads. -/
def update_heads (heads : List Head) (st : AsyncBufferedReceiver)
    (s : ByteStream) (fuel : Nat) : Except Unit (List Head) :=
  (poll heads st s fuel).map (fun r => r.1)

/-- `Connection` from `src/bin/server.rs`.  The two directions of the
peer's `TcpStream` are split: `stream` is the inbound schedule the server
reads, `sent` collects every byte the server has written to this peer. -/
structure Connection where
  last_pos : Head
  stream : ByteStream
  sent : List Nat
  addr : Nat
  msg_buf : AsyncBufferedReceiver
deriving DecidableEq

/-- The per-peer body of one tick of `server` (`src/bin/server.rs`): for each
connection in order, one framer `read`; `Disconnected` drops the peer,
`Complete(buf)` writes `buf` to stdout and retains the peer, `Incomplete`
and `Invalid` retain it; an I/O error aborts the whole loop (the `?`).
Returns the retained connections and the bytes written to stdout. -/
def serverTickAux : List Connection → Except Unit (List Connection × List Nat)
  | [] => .ok ([], [])
  | c :: rest =>
      match c.msg_buf.read c.stream with
      | (.error _, _, _) => .error ()
      | (.ok .Disconnected, _, _) => serverTickAux rest
      | (.ok (.Complete buf), st', s') =>
          (serverTickAux rest).map
            (fun r => ({ c with msg_buf := st', stream := s' } :: r.1, buf ++ r.2))
      | (.ok .Incomplete, st', s') =>
          (serverTickAux rest).map
            (fun r => ({ c with msg_buf := st', stream := s' } :: r.1, r.2))
      | (.ok .Invalid, st', s') =>
          (serverTickAux rest).map
            (fun r => ({ c with msg_buf := st', stream := s' } :: r.1, r.2))

/-- A freshly accepted connection as `server` constructs it: default head,
fresh framer, nothing sent yet. -/
def mkConn (inbound : ByteStream) (addr : Nat) : Connection :=
  ⟨Head.default, inbound, [], addr, .new⟩

/-- One full tick of `server`: drain the pending accepts into the live set,
then process every connection. -/
def serverTick (accepted : List (ByteStream × Nat)) (conns : List Connection) :
    Except Unit (List Connection × List Nat) :=
  serverTickAux (conns ++ accepted.map (fun a => mkConn a.1 a.2))

/-- The bind-address choice of `main` in `src/bin/server.rs`:
the first command-line argument after the program name, or the default. -/
def bind_addr (args : List String) : String :=
  ((args.drop 1).head?).getD "127.0.0.1:5031"

/-! ## Helper lemmas -/

theorem leU32_le4 {n : Nat} (h : n < 4294967296) : leU32 (le4 n) = n := by
  simp only [le4, leU32]
  omega

theorem rread_ok_length {n : Nat} {s s' : ByteStream} {bs : List Nat}
    (h : rread n s = (.ok bs, s')) : bs.length ≤ n := by
  unfold rread at h
  split at h
  · injection h with h1 _
    injection h1 with h1
    subst h1
    simp
  · match s with
    | [] =>
        injection h with h1 _
        injection h1 with h1
        subst h1
        simp
    | .data c :: rest =>
        simp only at h
        injection h with h1 _
        injection h1 with h1
        subst h1
        simp
    | .wouldBlock :: rest => simp at h
    | .ioError :: rest => simp at h

theorem writeAt_length {buf bytes : List Nat} {pos : Nat}
    (h : pos + bytes.length ≤ buf.length) :
    (writeAt buf pos bytes).length = buf.length := by
  simp [writeAt]
  omega

theorem read_of_buf_ne {st : AsyncBufferedReceiver} {s : ByteStream}
    (h : st.buf ≠ []) : st.read s = body_step st s := by
  unfold AsyncBufferedReceiver.read header_step
  simp [h]

theorem runFramer_nil (fuel : Nat) (st : AsyncBufferedReceiver) :
    runFramer fuel st [] = [] := by
  cases fuel <;> simp [runFramer]

theorem complete_ne_nil {st : AsyncBufferedReceiver} {s : ByteStream} {m : List Nat}
    (h : (st.read s).1 = .ok (.Complete m)) : m ≠ [] := by
  unfold AsyncBufferedReceiver.read at h
  rcases hh : header_step st s with ⟨ho, st', s'⟩
  rw [hh] at h
  cases ho with
  | ret r =>
      unfold header_step at hh
      split at hh
      · split at hh
        · split at hh
          · simp_all
          · split at hh <;> simp_all
        · simp_all
        · simp_all
      · simp_all
  | proceed =>
      simp only at h
      unfold body_step at h
      rcases hr : rread (st'.buf.length - st'.buf_pos) s' with ⟨res, s''⟩
      rw [hr] at h
      cases res with
      | ok bytes =>
          simp only at h
          split at h
          · simp_all
          · split at h
            · rename_i hlen0 _
              injection h with h
              injection h with h
              intro hm
              subst hm
              apply hlen0
              rw [writeAt] at h
              rcases List.append_eq_nil.mp (List.append_eq_nil.mp h).1 with ⟨-, hb⟩
              simp [hb]
            · simp_all
      | wouldBlock => simp_all
      | ioError => simp_all

/-! ## Claim theorems -/

/-- C9 counterexample: with no address argument the server does *not* bind
`0.0.0.0:5031`. -/
theorem bind_addr_not_all_interfaces : ¬ (bind_addr ["server"] = "0.0.0.0:5031") := by
  decide

/-- C9 (amended): when the server is started with no address argument, it
listens on the default address `127.0.0.1:5031`. -/
theorem bind_addr_default (prog : String) : bind_addr [prog] = "127.0.0.1:5031" := rfl

/-- C4: for a framer awaiting the header, one `read` maps the header-read
result as follows: 0 bytes → `Disconnected`; 1–3 bytes → `Invalid`;
exactly 4 bytes → decode as unsigned 32-bit little-endian length, allocate
a body buffer of that size, reset the cursor to 0. -/
theorem framer_header_phase (st : AsyncBufferedReceiver) (s s' : ByteStream)
    (b : List Nat) (hbuf : st.buf = []) (hr : rread 4 s = (.ok b, s')) :
    (b.length = 0 → st.read s = (.ok .Disconnected, st, s')) ∧
    ((b.length = 1 ∨ b.length = 2 ∨ b.length = 3) → st.read s = (.ok .Invalid, st, s')) ∧
    (b.length = 4 →
      header_step st s = (.proceed, ⟨List.replicate (leU32 b) 0, 0⟩, s')) := by
  refine ⟨fun h0 => ?_, fun h13 => ?_, fun h4 => ?_⟩
  · unfold AsyncBufferedReceiver.read header_step
    simp [hbuf, hr, h0]
  · unfold AsyncBufferedReceiver.read header_step
    rcases h13 with h | h | h <;> simp [hbuf, hr, h]
  · unfold header_step
    simp [hbuf, hr, h4]

/-- C4 witness: a 2-byte partial header yields `Invalid` with the framer
unchanged. -/
theorem framer_header_phase_witness :
    AsyncBufferedReceiver.read .new [Chunk.data [7, 7]] = (.ok .Invalid, .new, []) :=
  (framer_header_phase .new [Chunk.data [7, 7]] [] [7, 7] rfl rfl).2.1
    (Or.inr (Or.inl rfl))

/-- C10: a complete 4-byte header decoding to length 0 makes `read` return
`Disconnected` in that same call (the zero-length body read yields 0
bytes), and no `read` ever returns `Complete` with an empty message. -/
theorem framer_zero_length_disconnects (st : AsyncBufferedReceiver)
    (s s' : ByteStream) (hbuf : st.buf = [])
    (hr : rread 4 s = (.ok [0, 0, 0, 0], s')) :
    st.read s = (.ok .Disconnected, ⟨[], 0⟩, s') ∧
    (∀ (st₂ : AsyncBufferedReceiver) (t : ByteStream) (m : List Nat),
      (st₂.read t).1 = .ok (.Complete m) → m ≠ []) := by
  constructor
  · unfold AsyncBufferedReceiver.read header_step
    simp only [hbuf, List.isEmpty_nil, if_true, hr]
    norm_num [leU32]
    unfold body_step
    simp [rread]
  · exact fun _ _ _ h => complete_ne_nil h

/-- C10 witness: a zero-length header is `Disconnected` even with more input
scheduled. -/
theorem framer_zero_length_disconnects_witness :
    AsyncBufferedReceiver.read .new [Chunk.data [0, 0, 0, 0], Chunk.wouldBlock] =
      (.ok .Disconnected, ⟨[], 0⟩, [Chunk.wouldBlock]) :=
  (framer_zero_length_disconnects .new [Chunk.data [0, 0, 0, 0], Chunk.wouldBlock]
    [Chunk.wouldBlock] rfl rfl).1

/-- C5: in the body phase one read maps the result as follows: 0 bytes with
no error → `Disconnected`; a positive count `n` advances the cursor by `n`,
returning `Complete` with the full body (and resetting to awaiting-header)
exactly when the cursor reaches the buffer length and `Incomplete`
otherwise; a would-block condition in either phase → `Incomplete`. -/
theorem framer_body_phase (st : AsyncBufferedReceiver) (s : ByteStream) :
    (∀ s', rread (st.buf.length - st.buf_pos) s = (.ok [], s') →
        body_step st s = (.ok .Disconnected, st, s')) ∧
    (∀ bs s', rread (st.buf.length - st.buf_pos) s = (.ok bs, s') → bs ≠ [] →
        body_step st s =
          if st.buf_pos + bs.length = st.buf.length then
            (.ok (.Complete (writeAt st.buf st.buf_pos bs)),
              ⟨[], st.buf_pos + bs.length⟩, s')
          else
            (.ok .Incomplete,
              ⟨writeAt st.buf st.buf_pos bs, st.buf_pos + bs.length⟩, s')) ∧
    (∀ s', rread (st.buf.length - st.buf_pos) s = (.wouldBlock, s') →
        body_step st s = (.ok .Incomplete, st, s')) ∧
    (∀ (st₂ : AsyncBufferedReceiver) s', st₂.buf = [] →
        rread 4 s = (.wouldBlock, s') →
        st₂.read s = (.ok .Incomplete, st₂, s')) := by
  refine ⟨fun s' h => ?_, fun bs s' h hbs => ?_, fun s' h => ?_,
    fun st₂ s' hbuf h => ?_⟩
  · unfold body_step
    simp [h]
  · unfold body_step
    rw [h]
    simp only [List.length_eq_zero]
    rw [if_neg hbs]
  · unfold body_step
    simp [h]
  · unfold AsyncBufferedReceiver.read header_step
    simp [hbuf, h]

/-- C5 witness: a would-block read mid-body yields `Incomplete` and leaves
the framer untouched. -/
theorem framer_body_phase_witness :
    body_step ⟨[0, 0], 1⟩ [Chunk.wouldBlock] = (.ok .Incomplete, ⟨[0, 0], 1⟩, []) :=
  (framer_body_phase ⟨[0, 0], 1⟩ [Chunk.wouldBlock]).2.2.1 [] rfl

/-- C6 counterexample: a call on a fresh framer (which satisfies
cursor ≤ buffer length) that completes a 2-byte message leaves the cursor
at 2 but the buffer empty, so `read` does not preserve
cursor ≤ buffer length. -/
theorem framer_cursor_not_preserved :
    AsyncBufferedReceiver.new.buf_pos ≤ AsyncBufferedReceiver.new.buf.length ∧
    ¬ ((AsyncBufferedReceiver.read .new [Chunk.data [2, 0, 0, 0, 9, 9]]).2.1.buf_pos ≤
        (AsyncBufferedReceiver.read .new [Chunk.data [2, 0, 0, 0, 9, 9]]).2.1.buf.length) := by
  decide

theorem body_step_inv (st : AsyncBufferedReceiver) (s : ByteStream)
    (hpos : st.buf_pos ≤ st.buf.length) :
    ((body_step st s).2.1.buf_pos ≤ (body_step st s).2.1.buf.length ∨
      (body_step st s).2.1.buf = []) ∧
    ((∀ m, (body_step st s).1 ≠ .ok (.Complete m)) →
      (body_step st s).2.1.buf.length = st.buf.length) ∧
    (∀ m, (body_step st s).1 = .ok (.Complete m) → m.length = st.buf.length) := by
  unfold body_step
  rcases hr : rread (st.buf.length - st.buf_pos) s with ⟨res, s'⟩
  cases res with
  | ok bytes =>
      have hble : bytes.length ≤ st.buf.length - st.buf_pos := rread_ok_length hr
      have hsum : st.buf_pos + bytes.length ≤ st.buf.length := by omega
      by_cases h0 : bytes.length = 0
      · simp [h0, hpos]
      · by_cases hc : st.buf_pos + bytes.length = st.buf.length
        · simp only [h0, if_false, hc, if_true]
          refine ⟨Or.inr trivial, fun hno => absurd rfl (hno _), fun m hm => ?_⟩
          injection hm with hm
          injection hm with hm
          rw [← hm, writeAt_length hsum]
        · simp only [h0, if_false, hc]
          refine ⟨Or.inl ?_, fun _ => writeAt_length hsum, by simp⟩
          simpa [writeAt_length hsum] using hsum
  | wouldBlock => simp [hpos]
  | ioError => simp [hpos]

/-- C6 (amended): `read` preserves the invariant "cursor ≤ buffer length,
or the buffer is empty (awaiting a header, the cursor then being stale
until the next header resets it)"; and while a message is in progress the
buffer length set from the header does not change until the body
completes, a completed message having exactly that length. -/
theorem framer_invariant (st : AsyncBufferedReceiver) (s : ByteStream)
    (hinv : st.buf_pos ≤ st.buf.length ∨ st.buf = []) :
    ((st.read s).2.1.buf_pos ≤ (st.read s).2.1.buf.length ∨
      (st.read s).2.1.buf = []) ∧
    (st.buf ≠ [] →
      ((∀ m, (st.read s).1 ≠ .ok (.Complete m)) →
        (st.read s).2.1.buf.length = st.buf.length) ∧
      (∀ m, (st.read s).1 = .ok (.Complete m) → m.length = st.buf.length)) := by
  by_cases hb : st.buf = []
  · refine ⟨?_, fun h => absurd hb h⟩
    unfold AsyncBufferedReceiver.read header_step
    simp only [hb, List.isEmpty_nil, if_true]
    rcases hr : rread 4 s with ⟨res, s'⟩
    cases res with
    | ok bytes =>
        by_cases h0 : bytes.length = 0
        · simp [h0, hb]
        · by_cases h4 : bytes.length = 4
          · simp only [h0, if_false, h4, if_true]
            exact (body_step_inv ⟨List.replicate (leU32 bytes) 0, 0⟩ s'
              (by simp)).1
          · simp [h0, h4, hb]
    | wouldBlock => simp [hb]
    | ioError => simp [hb]
  · rw [read_of_buf_ne hb]
    have hpos : st.buf_pos ≤ st.buf.length := hinv.resolve_right hb
    exact ⟨(body_step_inv st s hpos).1,
      fun _ => ⟨(body_step_inv st s hpos).2.1, (body_step_inv st s hpos).2.2⟩⟩

/-- C6 witness: the amended invariant after completing a message mid-body. -/
theorem framer_invariant_witness :
    (AsyncBufferedReceiver.read ⟨[0, 0], 1⟩ [Chunk.data [5]]).2.1.buf_pos ≤
        (AsyncBufferedReceiver.read ⟨[0, 0], 1⟩ [Chunk.data [5]]).2.1.buf.length ∨
      (AsyncBufferedReceiver.read ⟨[0, 0], 1⟩ [Chunk.data [5]]).2.1.buf = [] :=
  (framer_invariant ⟨[0, 0], 1⟩ [Chunk.data [5]] (Or.inl (by decide))).1

theorem roundTrip_eq {h : Head} (hwf : h.wf) : roundTrip h = some h := by
  rcases h with ⟨⟨x, y, z⟩, ⟨i, j, k, w⟩⟩
  obtain ⟨hx, hy, hz, hi, hj, hk, hw⟩ := hwf
  dsimp only at hx hy hz hi hj hk hw
  simp only [roundTrip, serialize_msg, serializeHead, deserializeHead, le4,
    List.cons_append, List.nil_append]
  simp only [List.take_succ_cons, List.drop_succ_cons]
  simp [leU32]
  omega

/-- C7: serializing a `Head` with `serialize_msg` (4-byte little-endian
length header plus bincode body) and decoding the body back yields the
record bit-for-bit, for any number `N` of repeated round trips. -/
theorem head_roundtrip (h : Head) (hwf : h.wf) :
    roundTrip h = some h ∧
    ∀ N : Nat, (fun g => (roundTrip g).getD g)^[N] h = h := by
  refine ⟨roundTrip_eq hwf, fun N => ?_⟩
  induction N with
  | zero => rfl
  | succ n ih =>
      rw [Function.iterate_succ_apply', ih]
      simp [roundTrip_eq hwf]

/-- C7 witness: the round trip at the identity pose (quaternion `w` pattern
`0x3F800000`). -/
theorem head_roundtrip_witness :
    roundTrip ⟨⟨0, 0, 0⟩, ⟨0, 0, 0, 1065353216⟩⟩ =
      some ⟨⟨0, 0, 0⟩, ⟨0, 0, 0, 1065353216⟩⟩ ∧
    (fun g => (roundTrip g).getD g)^[3] ⟨⟨0, 0, 0⟩, ⟨0, 0, 0, 1065353216⟩⟩ =
      ⟨⟨0, 0, 0⟩, ⟨0, 0, 0, 1065353216⟩⟩ := by
  have h := head_roundtrip ⟨⟨0, 0, 0⟩, ⟨0, 0, 0, 1065353216⟩⟩
    (by norm_num [Head.wf])
  exact ⟨h.1, h.2 3⟩

theorem pollLoop_latest :
    ∀ (fuel : Nat) (st : AsyncBufferedReceiver) (s : ByteStream)
      (acc lat : Option (List Nat)) (st' : AsyncBufferedReceiver) (s' : ByteStream),
      pollLoop fuel st s acc = .ok (lat, st', s') →
      lat = (match (drainMsgs fuel st s).getLast? with
             | some m => some m
             | none => acc) := by
  intro fuel
  induction fuel with
  | zero =>
      intro st s acc lat st' s' h
      injection h with h
      injection h with h1 _
      simp [drainMsgs, ← h1]
  | succ n ih =>
      intro st s acc lat st' s' h
      rw [pollLoop] at h
      rcases hr : st.read s with ⟨res, st₂, s₂⟩
      rw [hr] at h
      rw [drainMsgs, hr]
      cases res with
      | ok rs =>
          cases rs with
          | Complete m =>
              have := ih st₂ s₂ (some m) lat st' s' h
              rw [this]
              cases hcase : drainMsgs n st₂ s₂ with
              | nil => simp [hcase]
              | cons x xs =>
                  rcases hgl : (x :: xs).getLast? with _ | g
                  · simp at hgl
                  · simp [hcase, List.getLast?_cons_cons, hgl]
          | Disconnected =>
              injection h with h
              injection h with h1 _
              simp [← h1]
          | Incomplete =>
              injection h with h
              injection h with h1 _
              simp [← h1]
          | Invalid =>
              injection h with h
              injection h with h1 _
              simp [← h1]
      | error e => simp at h

/-- C8: each call of the client's poll drains the framer while reads return
`Complete`; when one or more messages complete during the call only the
most recently completed one is decoded and stored, and when none completes
the previously stored aggregate is returned unchanged. -/
theorem client_poll_latest (fuel : Nat) (heads : List Head)
    (st : AsyncBufferedReceiver) (s : ByteStream)
    (r : List Head × AsyncBufferedReceiver × ByteStream)
    (h : poll heads st s fuel = Except.ok r) :
    (drainMsgs fuel st s = [] → r.1 = heads) ∧
    (∀ m, (drainMsgs fuel st s).getLast? = some m →
      deserializeHeads m = some r.1) := by
  unfold poll at h
  rcases hp : pollLoop fuel st s none with e | ⟨lat, st', s'⟩
  · rw [hp] at h
    simp at h
  · rw [hp] at h
    have hlat := pollLoop_latest fuel st s none lat st' s' hp
    cases lat with
    | none =>
        simp only at h
        injection h with h
        constructor
        · intro _
          rw [← h]
        · intro m hm
          rw [hm] at hlat
          simp at hlat
    | some m0 =>
        simp only at h
        rcases hd : deserializeHeads m0 with _ | hs
        · rw [hd] at h
          simp at h
        · rw [hd] at h
          injection h with h
          rcases hgl : (drainMsgs fuel st s).getLast? with _ | g
          · rw [hgl] at hlat
            simp at hlat
          · rw [hgl] at hlat
            injection hlat with hlat
            constructor
            · intro hnil
              rw [hnil] at hgl
              simp at hgl
            · intro m hm
              injection hm with hm
              rw [← hm, ← hlat, hd, ← h]

/-- C8 witness: two complete aggregates in one poll; only the second one is
decoded and stored. -/
theorem client_poll_latest_witness :
    deserializeHeads (le8 1 ++ serializeHead ⟨⟨1, 2, 3⟩, ⟨4, 5, 6, 7⟩⟩) =
      some [⟨⟨1, 2, 3⟩, ⟨4, 5, 6, 7⟩⟩] :=
  (client_poll_latest 3 []
    AsyncBufferedReceiver.new
    [Chunk.data (le4 36 ++ (le8 1 ++ serializeHead ⟨⟨9, 9, 9⟩, ⟨9, 9, 9, 9⟩⟩) ++
        (le4 36 ++ (le8 1 ++ serializeHead ⟨⟨1, 2, 3⟩, ⟨4, 5, 6, 7⟩⟩))),
      Chunk.wouldBlock]
    ([⟨⟨1, 2, 3⟩, ⟨4, 5, 6, 7⟩⟩], ⟨[], 36⟩, []) (by decide)).2
    (le8 1 ++ serializeHead ⟨⟨1, 2, 3⟩, ⟨4, 5, 6, 7⟩⟩) (by decide)

theorem le4_length (n : Nat) : (le4 n).length = 4 := rfl

theorem eq_nil_of_flatten_eq_nil {l : List (List Nat)}
    (hne : ∀ c ∈ l, c ≠ []) (h : l.flatten = []) : l = [] := by
  cases l with
  | nil => rfl
  | cons c cs =>
      exfalso
      rw [List.flatten_cons, List.append_eq_nil] at h
      exact hne c (by simp) h.1

theorem body_step_data (body c : List Nat) (pos : Nat) (s : ByteStream)
    (hc : c ≠ []) (hpos : pos < body.length)
    (hpre : c = (body.drop pos).take c.length)
    (hle : pos + c.length ≤ body.length) :
    body_step ⟨body.take pos ++ List.replicate (body.length - pos) 0, pos⟩
        (.data c :: s) =
      (if pos + c.length = body.length then
        (.ok (.Complete body), ⟨[], pos + c.length⟩, s)
      else
        (.ok .Incomplete,
          ⟨body.take (pos + c.length) ++
              List.replicate (body.length - (pos + c.length)) 0,
            pos + c.length⟩, s)) := by
  have htp : (body.take pos).length = pos := by
    simp [Nat.min_eq_left (Nat.le_of_lt hpos)]
  have hbl : (body.take pos ++ List.replicate (body.length - pos) 0).length =
      body.length := by
    simp [htp]
    omega
  have hcl : c.length ≤ body.length - pos := by omega
  have hntz : body.length - pos ≠ 0 := by omega
  have hrr : rread (body.length - pos) (Chunk.data c :: s) = (.ok c, s) := by
    unfold rread
    rw [if_neg hntz]
    simp only [List.take_of_length_le hcl, List.drop_of_length_le hcl,
      List.isEmpty_nil, if_true]
  unfold body_step
  simp only [hbl, hrr]
  rw [if_neg (by simp [hc] : ¬ c.length = 0)]
  simp only [writeAt, List.take_left' htp]
  by_cases hcond : pos + c.length = body.length
  · rw [if_pos hcond, if_pos hcond]
    have hcfull : c = body.drop pos := by
      rw [hpre]
      exact List.take_of_length_le (by simp; omega)
    have hdz : (body.take pos ++ List.replicate (body.length - pos) 0).drop
        (pos + c.length) = [] := List.drop_of_length_le (by omega)
    rw [hdz, hcfull]
    simp
  · rw [if_neg hcond, if_neg hcond]
    have hdz : (body.take pos ++ List.replicate (body.length - pos) 0).drop
        (pos + c.length) = List.replicate (body.length - (pos + c.length)) 0 := by
      have h1 : pos + c.length = (body.take pos).length + c.length := by rw [htp]
      rw [h1, List.drop_append, List.drop_replicate]
      simp [htp]
      omega
    have htc : body.take pos ++ c = body.take (pos + c.length) := by
      rw [List.take_add, ← hpre]
    rw [hdz, htc]

theorem runFramer_body (body : List Nat) :
    ∀ (chunks : List (List Nat)) (fuel pos : Nat),
      chunks.length ≤ fuel →
      (∀ c ∈ chunks, c ≠ []) →
      chunks.flatten = body.drop pos →
      pos < body.length →
      runFramer fuel
        ⟨body.take pos ++ List.replicate (body.length - pos) 0, pos⟩
        (chunks.map .data) = [body] := by
  intro chunks
  induction chunks with
  | nil =>
      intro fuel pos _ _ hflat hpos
      exfalso
      rw [List.flatten_nil] at hflat
      have := List.drop_eq_nil_iff.mp hflat.symm
      omega
  | cons c rest ih =>
      intro fuel pos hfuel hne hflat hpos
      cases fuel with
      | zero => simp at hfuel
      | succ f =>
          have hfr : rest.length ≤ f := by
            simp at hfuel
            omega
          have hcne : c ≠ [] := hne c (by simp)
          have hrne : ∀ x ∈ rest, x ≠ [] := fun x hx => hne x (by simp [hx])
          have hflat' : c ++ rest.flatten = body.drop pos := by
            rw [← List.flatten_cons]
            exact hflat
          have hclen : c.length ≤ body.length - pos := by
            have h1 := congrArg List.length hflat'
            simp only [List.length_append, List.length_drop] at h1
            omega
          have hle : pos + c.length ≤ body.length := by omega
          have hpre : c = (body.drop pos).take c.length := by
            rw [← hflat', List.take_left' rfl]
          have hbufne : body.take pos ++ List.replicate (body.length - pos) 0 ≠ [] := by
            intro hcontra
            have h2 := (List.append_eq_nil.mp hcontra).2
            have h3 := congrArg List.length h2
            simp at h3
            omega
          rw [runFramer]
          simp only [List.map_cons, List.isEmpty_cons, Bool.false_eq_true, if_false]
          rw [read_of_buf_ne hbufne]
          rw [body_step_data body c pos (rest.map .data) hcne hpos hpre hle]
          by_cases hcond : pos + c.length = body.length
          · rw [if_pos hcond]
            have hrest : rest = [] := by
              refine eq_nil_of_flatten_eq_nil hrne ?_
              have h1 := congrArg List.length hflat'
              simp only [List.length_append, List.length_drop] at h1
              have h4 : rest.flatten.length = 0 := by omega
              exact List.length_eq_zero.mp h4
            subst hrest
            simp [runFramer_nil]
          · rw [if_neg hcond]
            have hpos' : pos + c.length < body.length :=
              Nat.lt_of_le_of_ne hle hcond
            have hflat2 : rest.flatten = body.drop (pos + c.length) := by
              have h2 : rest.flatten = (body.drop pos).drop c.length := by
                rw [← hflat', List.drop_left' rfl]
              rw [h2, List.drop_drop]
            have hrec := ih f (pos + c.length) hfr hrne hflat2 hpos'
            simpa using hrec

theorem read_header_data (st : AsyncBufferedReceiver) (c : List Nat)
    (s : ByteStream) (hbuf : st.buf = []) (h4 : 4 ≤ c.length) :
    st.read (Chunk.data c :: s) =
      body_step ⟨List.replicate (leU32 (c.take 4)) 0, 0⟩
        (if (c.drop 4).isEmpty then s else .data (c.drop 4) :: s) := by
  have htk : (c.take 4).length = 4 := by simp [Nat.min_eq_left h4]
  unfold AsyncBufferedReceiver.read header_step rread
  simp only [hbuf, List.isEmpty_nil, if_true]
  norm_num [htk]

theorem runFramer_partition (body : List Nat) (chunks : List (List Nat))
    (hbody : body ≠ []) (hlen : body.length < 4294967296)
    (hne : ∀ c ∈ chunks, c ≠ [])
    (hflat : chunks.flatten = le4 body.length ++ body)
    (hfirst : 4 ≤ (chunks.headD []).length) :
    runFramer chunks.length AsyncBufferedReceiver.new (chunks.map .data) =
      [body] := by
  cases chunks with
  | nil =>
      exfalso
      rw [List.flatten_nil] at hflat
      have h1 := congrArg List.length hflat
      simp [le4] at h1
  | cons c1 rest =>
      have h4 : 4 ≤ c1.length := by simpa using hfirst
      have hflat' : c1 ++ rest.flatten = le4 body.length ++ body := by
        rw [← List.flatten_cons]
        exact hflat
      have hbodylen : 0 < body.length := List.length_pos.mpr hbody
      have hc1take : c1.take 4 = le4 body.length := by
        have h1 : (c1 ++ rest.flatten).take 4 = le4 body.length := by
          rw [hflat']
          exact List.take_left' (le4_length _)
        rw [List.take_append_of_le_length h4] at h1
        exact h1
      have hdtail : c1.drop 4 ++ rest.flatten = body := by
        have h1 : (c1 ++ rest.flatten).drop 4 = body := by
          rw [hflat']
          exact List.drop_left' (le4_length _)
        rw [List.drop_append_of_le_length h4] at h1
        exact h1
      have hrne : ∀ x ∈ rest, x ≠ [] := fun x hx => hne x (by simp [hx])
      have hst : (⟨List.replicate body.length 0, 0⟩ : AsyncBufferedReceiver) =
          ⟨body.take 0 ++ List.replicate (body.length - 0) 0, 0⟩ := by simp
      rw [show (c1 :: rest).length = rest.length + 1 from rfl, runFramer]
      simp only [List.map_cons, List.isEmpty_cons, Bool.false_eq_true, if_false]
      rw [read_header_data AsyncBufferedReceiver.new c1 (rest.map .data) rfl h4]
      rw [hc1take, leU32_le4 hlen]
      by_cases hd : c1.drop 4 = []
      · simp only [hd, List.isEmpty_nil, if_true]
        have hrflat : rest.flatten = body := by simpa [hd] using hdtail
        cases rest with
        | nil =>
            exfalso
            rw [List.flatten_nil] at hrflat
            exact hbody hrflat.symm
        | cons c2 rs =>
            have hc2ne : c2 ≠ [] := hne c2 (by simp)
            have hrsne : ∀ x ∈ rs, x ≠ [] := fun x hx => hne x (by simp [hx])
            have hflat2 : c2 ++ rs.flatten = body := by
              rw [← List.flatten_cons]
              exact hrflat
            have hc2len : c2.length ≤ body.length := by
              have h1 := congrArg List.length hflat2
              simp only [List.length_append] at h1
              omega
            have hpre2 : c2 = (body.drop 0).take c2.length := by
              simp only [List.drop_zero]
              rw [← hflat2, List.take_left' rfl]
            rw [hst, List.map_cons,
              body_step_data body c2 0 (rs.map .data) hc2ne hbodylen hpre2
                (by omega)]
            by_cases hcond : 0 + c2.length = body.length
            · rw [if_pos hcond]
              have hrs : rs = [] := by
                refine eq_nil_of_flatten_eq_nil hrsne ?_
                have h1 := congrArg List.length hflat2
                simp only [List.length_append] at h1
                have h2 : rs.flatten.length = 0 := by omega
                exact List.length_eq_zero.mp h2
              subst hrs
              simp [runFramer_nil]
            · rw [if_neg hcond]
              have hposlt : c2.length < body.length := by omega
              have hrsflat : rs.flatten = body.drop c2.length := by
                rw [← hflat2, List.drop_left' rfl]
              have hrec := runFramer_body body rs (rs.length + 1) c2.length
                (by omega) hrsne hrsflat hposlt
              simpa using hrec
      · have hdne : (c1.drop 4).isEmpty = false := by
          cases h : c1.drop 4 with
          | nil => exact absurd h hd
          | cons a as => simp
        simp only [hdne, Bool.false_eq_true, if_false]
        have hpre2 : c1.drop 4 = (body.drop 0).take (c1.drop 4).length := by
          simp only [List.drop_zero]
          rw [← hdtail, List.take_left' rfl]
        have hdlen : (c1.drop 4).length ≤ body.length := by
          have h1 := congrArg List.length hdtail
          simp only [List.length_append] at h1
          omega
        rw [hst, body_step_data body (c1.drop 4) 0 (rest.map .data) hd hbodylen
          hpre2 (by omega)]
        by_cases hcond : 0 + (c1.drop 4).length = body.length
        · rw [if_pos hcond]
          have hrest : rest = [] := by
            refine eq_nil_of_flatten_eq_nil hrne ?_
            have h1 := congrArg List.length hdtail
            simp only [List.length_append] at h1
            have h2 : rest.flatten.length = 0 := by omega
            exact List.length_eq_zero.mp h2
          subst hrest
          simp [runFramer_nil]
        · rw [if_neg hcond]
          have hposlt : (c1.drop 4).length < body.length := by omega
          have hrflat2 : rest.flatten = body.drop (c1.drop 4).length := by
            rw [← hdtail, List.drop_left' rfl]
          have hrec := runFramer_body body rest rest.length ((c1.drop 4).length)
            le_rfl hrne hrflat2 hposlt
          simpa using hrec

/-- C1 counterexample: the framed message `[1,0,0,0,42]` (header declaring a
1-byte body `[42]`) delivered one byte at a time completes no message at
all, while delivered in a single chunk it completes `[42]`: the partial
header reads are returned `Invalid` and their bytes discarded. -/
theorem framer_chunking_counterexample :
    runFramer 5 AsyncBufferedReceiver.new
        [Chunk.data [1], Chunk.data [0], Chunk.data [0], Chunk.data [0],
          Chunk.data [42]] = [] ∧
    runFramer 5 AsyncBufferedReceiver.new [Chunk.data [1, 0, 0, 0, 42]] =
      [[42]] := by
  decide

/-- C1 (amended): for one framed message with nonempty body, any partition
into nonempty chunks whose first chunk contains the whole 4-byte header
yields, fed chunk by chunk to a fresh framer, the same single completed
message as feeding all bytes at once. -/
theorem framer_chunking (body : List Nat) (chunks : List (List Nat))
    (hbody : body ≠ []) (hlen : body.length < 4294967296)
    (hne : ∀ c ∈ chunks, c ≠ [])
    (hflat : chunks.flatten = le4 body.length ++ body)
    (hfirst : 4 ≤ (chunks.headD []).length) :
    runFramer chunks.length AsyncBufferedReceiver.new (chunks.map .data) =
        [body] ∧
    runFramer 1 AsyncBufferedReceiver.new
        [Chunk.data (le4 body.length ++ body)] = [body] := by
  constructor
  · exact runFramer_partition body chunks hbody hlen hne hflat hfirst
  · have h1 := runFramer_partition body [le4 body.length ++ body] hbody hlen
      (by
        intro c hc
        simp at hc
        subst hc
        simp [le4])
      (by simp)
      (by simp [le4_length])
    simpa using h1

/-- C1 witness: the message `[9,9]` framed as `[2,0,0,0,9,9]`, split after
the fifth byte, completes identically to single-chunk delivery. -/
theorem framer_chunking_witness :
    runFramer 2 AsyncBufferedReceiver.new
        [Chunk.data [2, 0, 0, 0, 9], Chunk.data [9]] = [[9, 9]] ∧
    runFramer 1 AsyncBufferedReceiver.new [Chunk.data (le4 2 ++ [9, 9])] =
      [[9, 9]] :=
  ⟨(framer_chunking [9, 9] [[2, 0, 0, 0, 9], [9]] (by decide) (by decide)
      (by decide) (by decide) (by decide)).1,
   (framer_chunking [9, 9] [[2, 0, 0, 0, 9], [9]] (by decide) (by decide)
      (by decide) (by decide) (by decide)).2⟩

/-- C2: in a tick where a live peer delivers a complete framed StateRecord
(an update) and a second peer would block, the server writes the bytes to
stdout and sends no bytes to any peer — there is no broadcast of any
aggregate in `server.rs`, contradicting the claimed update-iff-broadcast
behaviour. -/
theorem server_no_broadcast :
    (serverTick []
        [mkConn [Chunk.data (le4 28 ++
            serializeHead ⟨⟨1, 2, 3⟩, ⟨4, 5, 6, 7⟩⟩), Chunk.wouldBlock] 0,
         mkConn [Chunk.wouldBlock] 1]).map
        (fun r => (r.1.map Connection.sent, r.2)) =
      .ok ([[], []], serializeHead ⟨⟨1, 2, 3⟩, ⟨4, 5, 6, 7⟩⟩) := by
  decide

/-- C3: when a live peer's read completes a message whose bytes decode to a
valid `Head` different from the default, the server retains the peer but
leaves its stored state (`last_pos`) unchanged at the default — the bytes
are echoed to stdout, never decoded into a StateRecord. -/
theorem server_complete_keeps_state :
    (serverTick []
        [mkConn [Chunk.data (le4 28 ++
            serializeHead ⟨⟨1, 2, 3⟩, ⟨4, 5, 6, 7⟩⟩), Chunk.wouldBlock] 0]).map
        (fun r => r.1.map Connection.last_pos) = .ok [Head.default] ∧
    deserializeHead (serializeHead ⟨⟨1, 2, 3⟩, ⟨4, 5, 6, 7⟩⟩) =
      some ⟨⟨1, 2, 3⟩, ⟨4, 5, 6, 7⟩⟩ ∧
    (⟨⟨1, 2, 3⟩, ⟨4, 5, 6, 7⟩⟩ : Head) ≠ Head.default := by
  decide

end Cubehead
